import Mathlib

/-!
Verification of the xanal repeating-key XOR cryptanalysis engine.

Bytes are modelled as natural numbers with `^^^` (XOR); byte sequences as
`List ℕ`.  The guess engine is embedded from `src/key_guess.rs` (the current
snapshot of the engine, the one `main.rs` links against), `decrypt` from
`src/lib.rs`, and the key-length analyser from `src/kl_anal.rs`.

Rust `f32` values are modelled as `Flt := Option ℚ`: `none` stands for NaN
(the only non-finite value these computations can produce), arithmetic is
exact rational arithmetic instead of rounded binary floating point, and every
comparison on a NaN operand is false, as in IEEE 754.  Rust panics
(usize underflow, `%` by zero, slice index out of bounds) are modelled by an
`Option` result at the function that can panic: `none` means the Rust code
panics instead of returning.
-/

set_option maxRecDepth 20000

/-- The three guessing strategies of `GuessMethod` in `src/key_guess.rs`. -/
inductive GuessMethod where
  | MostCommon : ℕ → GuessMethod
  | Crib : List ℕ → ℕ → GuessMethod
  | CribAndSearch : List ℕ → List ℕ → GuessMethod
deriving DecidableEq

deriving instance DecidableEq for Except

/-- Rust `slice::rotate_right(k)`: the last `k` elements move to the front.
Rust panics when `k > len`; every call site below has `k < len`, where this
definition agrees with the Rust semantics. -/
def rotr (k : ℕ) (l : List ℕ) : List ℕ :=
  l.drop (l.length - k) ++ l.take (l.length - k)

/-- Helper for `strided`: `c` counts the elements still to be skipped
before the next one is kept. -/
def stridedAux : List ℕ → ℕ → ℕ → List ℕ
  | [], _, _ => []
  | x :: xs, k, 0 => x :: stridedAux xs k (k - 1)
  | _ :: xs, k, c + 1 => stridedAux xs k c

/-- Rust `iter().step_by(k)` over a list: the elements at indices
`0, k, 2k, …`.  Rust panics on `k = 0`; no call site below passes 0. -/
def strided (l : List ℕ) (k : ℕ) : List ℕ :=
  stridedAux l k 0

/-- `decrypt` from `src/lib.rs`: XOR the data with the key repeated
cyclically.  The Rust `key[i % key.len()]` panics for an empty key; all the
facts proved below assume a non-empty key, where `getElem!` never hits its
out-of-range default. -/
def decrypt (data key : List ℕ) : List ℕ :=
  data.enum.map fun p => p.2 ^^^ key[p.1 % key.length]!

/-- The scan loop of the `CribAndSearch` arm of `GuessMethod::get_key`
(`src/key_guess.rs`): a partial-match counter `si` advances on a matching
byte, resets to 0 on a mismatch, and the loop breaks with success as soon as
`si == search.len() - 1`.  `none` models the Rust panic on the out-of-bounds
read `search[si]` (reachable only when `search.length ≤ 1`). -/
def scanP (stream search : List ℕ) (si : ℕ) : Option Bool :=
  match stream with
  | [] => some false
  | x :: rest =>
    if si < search.length then
      let si' := if x = search[si]! then si + 1 else 0
      if si' = search.length - 1 then some true else scanP rest search si'
    else none

/-- The `reduce` over the 256-entry frequency table in
`GuessMethod::get_key_at` (`MostCommon` arm): keep the earlier entry unless
the new count is strictly greater, starting from entry 0. -/
def most_freq (cnt : ℕ → ℕ) : ℕ :=
  ((List.range 256).foldl
    (fun p v => if p.2 < cnt v then (v, cnt v) else p) (0, cnt 0)).1

/-- `GuessMethod::get_key_at` from `src/key_guess.rs`.  The
`CribAndSearch` arm is `unimplemented!()` in Rust and is never reached from
`get_key`; it is mapped to 0 here. -/
def get_key_at (m : GuessMethod) (data : List ℕ) (key_index key_length : ℕ) : ℕ :=
  match m with
  | .MostCommon common =>
    most_freq (fun v => (strided (data.drop key_index) key_length).count v) ^^^ common
  | .Crib crib offset => data[offset + key_index]! ^^^ crib[key_index]!
  | .CribAndSearch _ _ => 0

/-- `GuessMethod::is_valid` from `src/key_guess.rs`, with the match-arm
guards checked in source order. -/
def is_valid (m : GuessMethod) (data : List ℕ) (key_length : ℕ) : Except String Unit :=
  match m with
  | .MostCommon _ => .ok ()
  | .CribAndSearch crib _ =>
    if key_length > crib.length then .error "The crib is shorter than the key length"
    else .ok ()
  | .Crib crib offset =>
    if key_length > crib.length then .error "The crib is shorter than the key length"
    else if offset + crib.length > data.length then
      .error "The crib is offset too far into the file"
    else .ok ()

/-- The `key_guess` local of the `CribAndSearch` arm of `get_key`
(`src/key_guess.rs`): the XOR of the crib with the `key_length` data bytes
starting at offset `p`, rotated right by `p % key_length`. -/
def key_guess_at (data crib : List ℕ) (key_length p : ℕ) : List ℕ :=
  rotr (p % key_length)
    (((data.drop p).take key_length).mapIdx fun i x => x ^^^ crib[i]!)

/-- The offset loop of the `CribAndSearch` arm of `get_key`
(`src/key_guess.rs`): for each offset, build the key guess from the crib
(the rotation is a Rust `%`-by-zero panic when `key_length = 0`, modelled
as `none`), decrypt the whole input with it and keep it when the scan
succeeds. -/
def searchLoop (data crib search : List ℕ) (key_length : ℕ) :
    List ℕ → Option (List (List ℕ))
  | [] => some []
  | p :: rest =>
    if key_length = 0 then none
    else
      match scanP (decrypt data (key_guess_at data crib key_length p)) search 0 with
      | none => none
      | some true =>
        match searchLoop data crib search key_length rest with
        | none => none
        | some ks => some (key_guess_at data crib key_length p :: ks)
      | some false => searchLoop data crib search key_length rest

/-- `GuessMethod::get_key` from `src/key_guess.rs`.  The outer `none`
models a panic: the usize underflow in `data.len() - crib.len()` when the
crib is longer than the data, and the panics inside the offset loop. -/
def get_key (m : GuessMethod) (data : List ℕ) (key_length : ℕ) :
    Option (Except String (List (List ℕ))) :=
  match is_valid m data key_length with
  | .error e => some (.error e)
  | .ok () =>
    match m with
    | .CribAndSearch crib search =>
      if data.length < crib.length then none
      else
        match searchLoop data crib search key_length
            (List.range (data.length - crib.length)) with
        | none => none
        | some keys =>
          some (if keys = [] then .error "No suitable keys found" else .ok keys)
    | _ =>
      some (.ok [(List.range key_length).map fun i => get_key_at m data i key_length])

/-- `guess_key` from `src/key_guess.rs` (the key length is carried by the
`Context` argument in Rust). -/
def guess_key (data : List ℕ) (key_length : ℕ) (m : GuessMethod) :
    Option (Except String (List (List ℕ))) :=
  get_key m data key_length

/-- The `f32` model: `some q` is the finite value `q`, `none` is NaN.  The
computations embedded below can produce no other non-finite value. -/
abbrev Flt := Option ℚ

/-- IEEE addition restricted to finite values and NaN. -/
def fadd : Flt → Flt → Flt
  | some a, some b => some (a + b)
  | _, _ => none

/-- IEEE subtraction restricted to finite values and NaN. -/
def fsub : Flt → Flt → Flt
  | some a, some b => some (a - b)
  | _, _ => none

/-- IEEE absolute value restricted to finite values and NaN. -/
def fabs : Flt → Flt
  | some a => some |a|
  | none => none

/-- IEEE division for the divisions performed below: a zero divisor yields
NaN (in `calc_ic` the numerator is provably zero whenever the divisor is, so
`0.0 / 0.0 = NaN` is the only non-finite case that can occur). -/
def fdiv : Flt → Flt → Flt
  | some a, some b => if b = 0 then none else some (a / b)
  | _, _ => none

/-- IEEE `<`: false whenever an operand is NaN. -/
def flt : Flt → Flt → Bool
  | some a, some b => decide (a < b)
  | _, _ => false

/-- IEEE `≤`: false whenever an operand is NaN. -/
def fle : Flt → Flt → Bool
  | some a, some b => decide (a ≤ b)
  | _, _ => false

/-- `calc_ic` from `src/kl_anal.rs`: the unnormalised index of coincidence
of the elements at indices `offset, offset+step, …`.  The Rust source sums
`x * (x - 1)` over the non-zero frequencies (the filter only guards the
usize underflow `0 - 1`; over ℕ the unfiltered sum has the same value) and
divides by `length * (length - 1)`, which is `0.0 / 0.0 = NaN` whenever the
class has at most one element. -/
def calc_ic (data : List ℕ) (offset step : ℕ) : Flt :=
  let cls := strided (data.drop offset) step
  let num : ℕ := ((List.range 256).map fun v => cls.count v * (cls.count v - 1)).sum
  fdiv (some (num : ℚ)) (some ((cls.length * (cls.length - 1) : ℕ) : ℚ))

/-- `calc_ic_for_key_length` from `src/kl_anal.rs`: the mean of the
per-class ICs (the Rust key length is a `NonZeroUsize`, so the final
division is never by zero). -/
def calc_ic_for_key_length (data : List ℕ) (key_length : ℕ) : Flt :=
  fdiv ((List.range key_length).foldl (fun m o => fadd m (calc_ic data o key_length))
    (some 0)) (some (key_length : ℚ))

/-- The body of the selection loop in `analyse_key_length`
(`src/kl_anal.rs`), acting on the current best index `best` and the loop
index `i`; 0.001 is taken as the exact rational 1/1000. -/
def kl_best_step (ic_vals : List Flt) (target : ℚ) (best i : ℕ) : ℕ :=
  let diff := fabs (fsub ic_vals[i]! (some target))
  let best_diff := fabs (fsub ic_vals[best]! (some target))
  if flt diff best_diff then
    if fle (fabs (fsub diff best_diff)) (some (1/1000)) then
      if ¬((i + 1) % (best + 1) = 0) then i else best
    else i
  else best

/-- `analyse_key_length` from `src/kl_anal.rs`.  The `f32::MAX` sentinel
the Rust code resizes `ic_vals` with is irrelevant: the first loop
overwrites every entry. -/
def analyse_key_length (data : List ℕ) (max_length : ℕ) (target : ℚ) : ℕ :=
  let maxl := min max_length data.length
  let ic_vals := (List.range maxl).map fun i => calc_ic_for_key_length data (i + 1)
  (List.range ic_vals.length).foldl (kl_best_step ic_vals target) 0 + 1

/-! ### Supporting lemmas about `decrypt` -/

lemma decrypt_length (data key : List ℕ) : (decrypt data key).length = data.length := by
  simp [decrypt]

lemma decrypt_getElem (data key : List ℕ) (i : ℕ) (h : i < data.length)
    (h2 : i < (decrypt data key).length) :
    (decrypt data key)[i] = data[i] ^^^ key[i % key.length]! := by
  simp [decrypt, List.getElem_map, List.getElem_enum]

lemma decrypt_getElem! (data key : List ℕ) (i : ℕ) (h : i < data.length) :
    (decrypt data key)[i]! = data[i]! ^^^ key[i % key.length]! := by
  rw [getElem!_pos (decrypt data key) i (by simpa [decrypt_length] using h),
    getElem!_pos data i h, decrypt_getElem data key i h (by simpa [decrypt_length] using h)]

lemma xor_xor_left (a b : ℕ) : (a ^^^ b) ^^^ a = b := by
  rw [Nat.xor_comm a b, Nat.xor_assoc, Nat.xor_self, Nat.xor_zero]

/-! ### Claim theorems -/

/-- C8: XOR involution — for every byte sequence `data` and non-empty key
`key`, decrypting twice with the same key returns `data` (`decrypt` XORs the
data with the key repeated cyclically). -/
theorem c8_xor_involution (data key : List ℕ) (_hd : data ≠ []) (_hk : key ≠ []) :
    decrypt (decrypt data key) key = data := by
  apply List.ext_getElem (by simp [decrypt_length])
  intro i h1 h2
  rw [decrypt_getElem _ key i (by simpa [decrypt_length] using h2) h1,
    decrypt_getElem data key i h2 (by simpa [decrypt_length] using h2),
    Nat.xor_assoc, Nat.xor_self, Nat.xor_zero]

theorem c8_xor_involution_w :
    decrypt (decrypt [1, 2, 3] [5, 6]) [5, 6] = [1, 2, 3] :=
  c8_xor_involution [1, 2, 3] [5, 6] (by decide) (by decide)

/-- Shared helper: on parameters that pass validation, the `Crib` strategy
returns exactly one candidate, the raw crib-at-offset keystream. -/
lemma crib_guess_eq (data crib : List ℕ) (p kl : ℕ)
    (h1 : kl ≤ crib.length) (h2 : p + crib.length ≤ data.length) :
    guess_key data kl (.Crib crib p) =
      some (.ok [(List.range kl).map fun i => data[p + i]! ^^^ crib[i]!]) := by
  have hv : is_valid (.Crib crib p) data kl = .ok () := by
    simp [is_valid, Nat.not_lt.mpr h1, Nat.not_lt.mpr h2]
  unfold guess_key get_key
  rw [hv]
  simp [get_key_at]

/-- C10 (implicit claim): for `1 ≤ keyLength ≤ crib.length` and
`offset + crib.length ≤ data.length`, the `Crib` method succeeds and
returns exactly one key of length `keyLength` with byte `i` equal to
`data[offset+i] XOR crib[i]` — the raw keystream at the given offset, with
no search over other offsets and no rotation. -/
theorem c10_crib_raw_keystream (data crib : List ℕ) (p kl : ℕ)
    (_h0 : 1 ≤ kl) (h1 : kl ≤ crib.length) (h2 : p + crib.length ≤ data.length) :
    guess_key data kl (.Crib crib p) =
      some (.ok [(List.range kl).map fun i => data[p + i]! ^^^ crib[i]!]) ∧
    ((List.range kl).map fun i => data[p + i]! ^^^ crib[i]!).length = kl :=
  ⟨crib_guess_eq data crib p kl h1 h2, by simp⟩

theorem c10_crib_raw_keystream_w :
    guess_key [1, 2, 3, 4] 2 (.Crib [9, 9] 1) = some (.ok [[11, 10]]) := by
  have h := (c10_crib_raw_keystream [1, 2, 3, 4] [9, 9] 1 2
    (by decide) (by decide) (by decide)).1
  rw [h]; decide

/-- C1 (amended): when the plaintext `P` contains the crib literally at
offset `p` and `keyLength = |K| < crib.length`, the `Crib` strategy applied
to `decrypt P K` returns exactly one candidate, the rotation of the true
key whose byte `i` is `K[(p + i) % |K|]`; it equals `K` itself whenever the
rotation is trivial (for instance when `p` is a multiple of `|K|`), but not
in general. -/
theorem c1_crib_key_rotated (P K crib : List ℕ) (p : ℕ)
    (_hK : K ≠ []) (h1 : K.length < crib.length) (h2 : p + crib.length ≤ P.length)
    (hc : ∀ j, j < crib.length → crib[j]! = P[p + j]!) :
    guess_key (decrypt P K) K.length (.Crib crib p) =
      some (.ok [(List.range K.length).map fun i => K[(p + i) % K.length]!]) := by
  rw [crib_guess_eq (decrypt P K) crib p K.length h1.le (by rwa [decrypt_length])]
  have hmap : ∀ i ∈ List.range K.length,
      (decrypt P K)[p + i]! ^^^ crib[i]! = K[(p + i) % K.length]! := by
    intro i hi
    rw [List.mem_range] at hi
    have hpi : p + i < P.length := by omega
    rw [decrypt_getElem! P K (p + i) hpi, hc i (by omega), xor_xor_left]
  rw [List.map_congr_left hmap]

theorem c1_crib_key_rotated_w :
    guess_key (decrypt [0, 0, 0, 0] [1, 2]) 2 (.Crib [0, 0, 0] 1) =
      some (.ok [[2, 1]]) := by
  have h := c1_crib_key_rotated [0, 0, 0, 0] [1, 2] [0, 0, 0] 1
    (by decide) (by decide) (by decide) (by decide)
  exact h.trans (by decide)

/-- C1 counterexample: the claim as stated is false — here the plaintext
`[0,0,0,0]` contains the crib `[0,0,0]` at offset 1 and `keyLength = 2 < 3`,
yet the returned candidate set is `[[2,1]]`, which does not contain the true
key `[1,2]`. -/
theorem c1_crib_key_cex :
    decrypt [0, 0, 0, 0] [1, 2] = [1, 2, 1, 2] ∧
    (∀ j, j < 3 → ([0, 0, 0] : List ℕ)[j]! = ([0, 0, 0, 0] : List ℕ)[1 + j]!) ∧
    guess_key [1, 2, 1, 2] 2 (.Crib [0, 0, 0] 1) = some (.ok [[2, 1]]) ∧
    ¬ [1, 2] ∈ [[2, 1]] := by decide

/-! ### The `MostCommon` strategy (C9) -/

/-- The frequency-table fold of `most_freq`, cut off after the first `n`
byte values (so `most_freq cnt = (mfFold cnt 256).1`). -/
def mfFold (cnt : ℕ → ℕ) (n : ℕ) : ℕ × ℕ :=
  (List.range n).foldl (fun p v => if p.2 < cnt v then (v, cnt v) else p) (0, cnt 0)

lemma most_freq_eq_mfFold (cnt : ℕ → ℕ) : most_freq cnt = (mfFold cnt 256).1 := rfl

lemma mfFold_succ (cnt : ℕ → ℕ) (n : ℕ) :
    mfFold cnt (n + 1) =
      if (mfFold cnt n).2 < cnt n then (n, cnt n) else mfFold cnt n := by
  unfold mfFold
  rw [List.range_succ, List.foldl_append]
  rfl

lemma mfFold_inv (cnt : ℕ → ℕ) (n : ℕ) (hn : 1 ≤ n) :
    (mfFold cnt n).1 < n ∧ (mfFold cnt n).2 = cnt (mfFold cnt n).1 ∧
    (∀ w, w < n → cnt w ≤ (mfFold cnt n).2) ∧
    (∀ w, w < (mfFold cnt n).1 → cnt w < (mfFold cnt n).2) := by
  induction n with
  | zero => omega
  | succ m ih =>
    rcases Nat.eq_zero_or_pos m with hm | hm
    · subst hm
      have h0 : mfFold cnt 1 = (0, cnt 0) := by
        unfold mfFold
        rw [show List.range 1 = [0] from rfl, List.foldl_cons, List.foldl_nil]
        exact if_neg (Nat.lt_irrefl _)
      rw [h0]
      refine ⟨by omega, rfl, ?_, by intro w hw; omega⟩
      intro w hw
      have hw0 : w = 0 := by omega
      subst hw0
      exact le_refl _
    · obtain ⟨h1, h2, h3, h4⟩ := ih hm
      rw [mfFold_succ]
      by_cases hc : (mfFold cnt m).2 < cnt m
      · rw [if_pos hc]
        refine ⟨by omega, rfl, ?_, ?_⟩
        · intro w hw
          rcases Nat.lt_succ_iff_lt_or_eq.1 hw with h | h
          · exact le_of_lt (lt_of_le_of_lt (h3 w h) hc)
          · subst h; exact le_refl _
        · intro w hw
          exact lt_of_le_of_lt (h3 w (by exact hw)) hc
      · rw [if_neg hc]
        refine ⟨by omega, h2, ?_, h4⟩
        intro w hw
        rcases Nat.lt_succ_iff_lt_or_eq.1 hw with h | h
        · exact h3 w h
        · subst h; exact Nat.not_lt.1 hc

/-- The property claimed (after amendment) of the `MostCommon` key byte:
`v` is the smallest byte value attaining the maximal frequency in the
residue class `cls`. -/
def is_least_argmax (cls : List ℕ) (v : ℕ) : Prop :=
  v < 256 ∧ (∀ w, w < 256 → cls.count w ≤ cls.count v) ∧
  (∀ w, w < v → cls.count w < cls.count v)

lemma most_freq_spec (cnt : ℕ → ℕ) :
    most_freq cnt < 256 ∧ (∀ w, w < 256 → cnt w ≤ cnt (most_freq cnt)) ∧
    (∀ w, w < most_freq cnt → cnt w < cnt (most_freq cnt)) := by
  obtain ⟨h1, h2, h3, h4⟩ := mfFold_inv cnt 256 (by norm_num)
  rw [most_freq_eq_mfFold]
  exact ⟨h1, fun w hw => h2 ▸ h3 w hw, fun w hw => h2 ▸ h4 w hw⟩

/-- C9 (amended): with `keyLength ≥ 1`, the `MostCommon(commonByte)`
strategy always returns exactly one candidate of length exactly
`keyLength`, and byte `i` of that candidate XOR `commonByte` is the
*smallest* byte value attaining the highest frequency in residue class `i`
(bytes at positions `i, i + keyLength, i + 2·keyLength, …`); ties between
byte values are broken toward the smaller value, since the 256-entry
frequency table is scanned in increasing byte order — not toward the value
seen first in the residue-class scan. -/
theorem c9_most_common_least_argmax (data : List ℕ) (kl common : ℕ) (_h : 1 ≤ kl) :
    ∃ k, guess_key data kl (.MostCommon common) = some (.ok [k]) ∧
      k.length = kl ∧
      ∀ i, i < kl → is_least_argmax (strided (data.drop i) kl) (k[i]! ^^^ common) := by
  refine ⟨(List.range kl).map fun i => get_key_at (.MostCommon common) data i kl,
    rfl, by simp, ?_⟩
  intro i hi
  have hk : ((List.range kl).map fun j => get_key_at (.MostCommon common) data j kl)[i]! =
      most_freq (fun v => (strided (data.drop i) kl).count v) ^^^ common := by
    rw [getElem!_pos _ i (by simpa using hi)]
    simp [List.getElem_map, get_key_at]
  rw [hk, Nat.xor_assoc, Nat.xor_self, Nat.xor_zero]
  exact most_freq_spec _

theorem c9_most_common_least_argmax_w :
    ∃ k, guess_key [5, 3] 1 (.MostCommon 0) = some (.ok [k]) ∧
      k.length = 1 ∧
      ∀ i, i < 1 → is_least_argmax (strided (List.drop i [5, 3]) 1) (k[i]! ^^^ 0) :=
  c9_most_common_least_argmax [5, 3] 1 0 (by decide)

/-- C9 counterexample: the claim's tie-break ("first-seen wins ties") is
false — in data `[5,3]` with key length 1 the residue class is `[5,3]`,
both byte values have count 1 and 5 is seen first, yet the candidate byte
is 3 (`3 XOR 0`), the smaller byte value. -/
theorem c9_most_common_cex :
    guess_key [5, 3] 1 (.MostCommon 0) = some (.ok [[3]]) ∧
    strided (List.drop 0 [5, 3]) 1 = [5, 3] ∧
    ([5, 3] : List ℕ).count 5 = ([5, 3] : List ℕ).count 3 ∧
    (3 : ℕ) ≠ 5 := by decide

/-! ### Validation errors (C5) -/

/-- The two validation ("InvalidParameters") messages of `is_valid`. -/
def invalid_params_msgs : List String :=
  ["The crib is shorter than the key length", "The crib is offset too far into the file"]

/-- Helper: with a crib at least as long as the key, a `CribAndSearch`
error can only be the no-candidates message. -/
lemma cribsearch_error_msg (data crib s : List ℕ) (kl : ℕ)
    (h1 : ¬ crib.length < kl) (e : String)
    (he : guess_key data kl (.CribAndSearch crib s) = some (.error e)) :
    e = "No suitable keys found" := by
  have hv : is_valid (.CribAndSearch crib s) data kl = .ok () := by
    simp [is_valid, h1]
  unfold guess_key get_key at he
  rw [hv] at he
  simp only [] at he
  by_cases hd : data.length < crib.length
  · simp [hd] at he
  · rw [if_neg hd] at he
    cases hsl : searchLoop data crib s kl (List.range (data.length - crib.length)) with
    | none => rw [hsl] at he; simp at he
    | some keys =>
      rw [hsl] at he
      simp only [] at he
      by_cases hk : keys = []
      · rw [if_pos hk] at he
        simp at he
        exact he.symm
      · rw [if_neg hk] at he
        simp at he

/-- C5 (amended): `guess_key` raises a validation error — synchronously,
before any scanning — exactly when the crib is *strictly* shorter than the
key length (for both crib strategies), or, for the `Crib` strategy, when
`offset + crib.length` exceeds the data length.  A call with
`crib.length == keyLength` passes validation, and zero-length data or a
zero key length are not validated at all (`MostCommon` never raises). -/
theorem c5_invalid_params_iff (m : GuessMethod) (data : List ℕ) (kl : ℕ) :
    (∃ e, guess_key data kl m = some (.error e) ∧ e ∈ invalid_params_msgs) ↔
      ((∃ crib s, m = .CribAndSearch crib s ∧ crib.length < kl) ∨
       (∃ crib off, m = .Crib crib off ∧
         (crib.length < kl ∨ data.length < off + crib.length))) := by
  cases m with
  | MostCommon c =>
    constructor
    · rintro ⟨e, he, _⟩
      simp [guess_key, get_key, is_valid] at he
    · rintro (⟨crib, s, h, _⟩ | ⟨crib, off, h, _⟩) <;> simp at h
  | Crib crib off =>
    constructor
    · rintro ⟨e, he, _⟩
      by_cases h1 : crib.length < kl
      · exact Or.inr ⟨crib, off, rfl, Or.inl h1⟩
      · by_cases h2 : data.length < off + crib.length
        · exact Or.inr ⟨crib, off, rfl, Or.inr h2⟩
        · rw [crib_guess_eq data crib off kl (by omega) (by omega)] at he
          simp at he
    · rintro (⟨c', s', h, _⟩ | ⟨c', o', h, hcond⟩)
      · simp at h
      · cases h
        by_cases h1 : crib.length < kl
        · refine ⟨"The crib is shorter than the key length", ?_, by decide⟩
          simp [guess_key, get_key, is_valid, h1]
        · have h2 : data.length < off + crib.length := by omega
          refine ⟨"The crib is offset too far into the file", ?_, by decide⟩
          simp [guess_key, get_key, is_valid, h1, h2]
  | CribAndSearch crib s =>
    constructor
    · rintro ⟨e, he, hme⟩
      by_cases h1 : crib.length < kl
      · exact Or.inl ⟨crib, s, rfl, h1⟩
      · rw [cribsearch_error_msg data crib s kl h1 e he] at hme
        simp [invalid_params_msgs] at hme
    · rintro (⟨c', s', h, hcond⟩ | ⟨c', o', h, _⟩)
      · cases h
        refine ⟨"The crib is shorter than the key length", ?_, by decide⟩
        simp [guess_key, get_key, is_valid, hcond]
      · simp at h

/-- C5 counterexample: with `crib.length == keyLength` the claim demands an
`InvalidParameters` failure, but the `Crib` strategy passes validation and
succeeds (here crib `[1]`, key length 1, data `[0,0]`). -/
theorem c5_invalid_params_cex :
    ([1] : List ℕ).length = 1 ∧
    guess_key [0, 0] 1 (.Crib [1] 0) = some (.ok [[1]]) := by decide

/-! ### The partial-match scan (C6) -/

/-- Helper: if the next `pre.length` bytes of the stream continue the
search target from position `si`, and they end one byte short of the full
target, the scan counter marches through them and reports success. -/
lemma scan_march (search : List ℕ) : ∀ (pre rest : List ℕ) (si : ℕ),
    1 ≤ pre.length → si + pre.length + 1 = search.length →
    (∀ k, (hk : k < pre.length) → pre.get ⟨k, hk⟩ = search[si + k]!) →
    scanP (pre ++ rest) search si = some true := by
  intro pre
  induction pre with
  | nil =>
    intro rest si h1 h2 h3
    simp at h1
  | cons x pre ih =>
    intro rest si h1 h2 h3
    have hsi : si < search.length := by
      simp only [List.length_cons] at h2
      omega
    have hx : x = search[si]! := by
      have h := h3 0 (by simp)
      simpa using h
    rw [List.cons_append,
      show scanP (x :: (pre ++ rest)) search si =
        (if si < search.length then
          (if (if x = search[si]! then si + 1 else 0) = search.length - 1 then some true
           else scanP (pre ++ rest) search (if x = search[si]! then si + 1 else 0))
         else none) from rfl,
      if_pos hsi, if_pos hx]
    cases pre with
    | nil =>
      rw [if_pos (by simp only [List.length_cons, List.length_nil] at h2; omega)]
    | cons y pre' =>
      rw [if_neg (by simp only [List.length_cons] at h2; omega)]
      apply ih rest (si + 1) (by simp)
        (by simp only [List.length_cons] at h2 ⊢; omega)
      intro k hk
      have h := h3 (k + 1) (by simpa using Nat.succ_lt_succ hk)
      have hidx : si + (k + 1) = si + 1 + k := by omega
      rw [hidx] at h
      simpa using h

/-- C6 (amended): during the single-pass partial-match scan a match is
declared as soon as the counter reaches `searchTarget.length - 1`, so for
every target of length at least 2 an occurrence of the first
`searchTarget.length - 1` bytes *at the very start* of the scanned stream
suffices; a mid-stream occurrence need not be detected, because the scanner
resets the counter to 0 on a mismatch without re-examining the mismatching
byte. -/
theorem c6_scan_prefix_accepts (search rest : List ℕ) (h2 : 2 ≤ search.length) :
    scanP (search.take (search.length - 1) ++ rest) search 0 = some true := by
  apply scan_march search (search.take (search.length - 1)) rest 0
    (by simp; omega) (by simp; omega)
  intro k hk
  have hk1 : k < search.length - 1 := by simpa using hk
  have hk2 : k < search.length := by omega
  rw [List.get_eq_getElem, List.getElem_take, getElem!_pos search (0 + k) (by omega)]
  simp

theorem c6_scan_prefix_accepts_w :
    scanP (List.take 2 [0, 1, 9] ++ [5]) [0, 1, 9] 0 = some true :=
  c6_scan_prefix_accepts [0, 1, 9] [5] (by decide)

/-- C6 counterexample: an occurrence of the first `searchTarget.length - 1`
bytes in the scanned stream does *not* always suffice.  With data
`[0,0,1]`, crib `[0]`, key length 1 and search target `[0,1,9]`, every
tested offset decrypts the data to `[0,0,1]`, which contains the two-byte
prefix `[0,1]` at position 1; yet the scanner (counter at 1 after the first
byte, reset on the second without re-examining it) never reaches 2, and
`guess_key` reports that no key was found. -/
theorem c6_scan_miss_cex :
    List.take 2 [0, 1, 9] = [0, 1] ∧
    decrypt [0, 0, 1] [0] = 0 :: [0, 1] ∧
    scanP (decrypt [0, 0, 1] [0]) [0, 1, 9] 0 = some false ∧
    guess_key [0, 0, 1] 1 (.CribAndSearch [0] [0, 1, 9]) =
      some (.error "No suitable keys found") := by decide

/-! ### The `CribAndSearch` strategy (C3) -/

/-- The per-offset key guess as the claim words it: `keyGuess[j] =
data[p+j] XOR crib[j]` for `j` in `0..keyLength`, rotated right by
`p mod keyLength`. -/
def crib_key_spec (data crib : List ℕ) (kl p : ℕ) : List ℕ :=
  rotr (p % kl) ((List.range kl).map fun j => data[p + j]! ^^^ crib[j]!)

/-- The per-offset acceptance test as the claim words it: decrypt the
*entire* ciphertext with the key guess and run the pattern scan on that
decrypted stream. -/
def scan_hit (data crib search : List ℕ) (kl p : ℕ) : Bool :=
  match scanP (decrypt data (crib_key_spec data crib kl p)) search 0 with
  | some b => b
  | none => false

/-- Helper: for a search target of length at least 2 the scan never
panics. -/
lemma scanP_total (search : List ℕ) (hs : 2 ≤ search.length) :
    ∀ (stream : List ℕ) (si : ℕ), si + 2 ≤ search.length →
      ∃ b, scanP stream search si = some b := by
  intro stream
  induction stream with
  | nil => exact fun si _ => ⟨false, rfl⟩
  | cons x rest ih =>
    intro si hsi
    rw [show scanP (x :: rest) search si =
      (if si < search.length then
        (if (if x = search[si]! then si + 1 else 0) = search.length - 1 then some true
         else scanP rest search (if x = search[si]! then si + 1 else 0))
       else none) from rfl, if_pos (by omega)]
    by_cases hx : x = search[si]!
    · rw [if_pos hx]
      by_cases hend : si + 1 = search.length - 1
      · exact ⟨true, by rw [if_pos hend]⟩
      · rw [if_neg hend]
        exact ih (si + 1) (by omega)
    · rw [if_neg hx]
      by_cases hend : (0 : ℕ) = search.length - 1
      · exact ⟨true, by rw [if_pos hend]⟩
      · rw [if_neg hend]
        exact ih 0 (by omega)

/-- Helper: within bounds, the `mapIdx` derivation of the key guess in the
source equals the claim's indexed formula. -/
lemma key_guess_at_eq_spec (data crib : List ℕ) (kl p : ℕ)
    (h : p + kl ≤ data.length) (hc : kl ≤ crib.length) :
    key_guess_at data crib kl p = crib_key_spec data crib kl p := by
  unfold key_guess_at crib_key_spec
  congr 1
  apply List.ext_getElem
  · simp
    omega
  · intro i h1 h2
    have hi : i < kl := by simpa using h2
    have hip : p + i < data.length := by omega
    rw [List.getElem_mapIdx]
    rw [List.getElem_map]
    rw [List.getElem_range]
    rw [List.getElem_take, List.getElem_drop]
    rw [getElem!_pos data (p + i) hip, getElem!_pos crib i (by omega)]

/-- Helper: on offsets inside the searched range, the offset loop returns
exactly the spec keys of the offsets accepted by the spec scan. -/
lemma searchLoop_eq_spec (data crib search : List ℕ) (kl : ℕ)
    (hkl : 1 ≤ kl) (hklc : kl ≤ crib.length) (hs : 2 ≤ search.length)
    (hcd : crib.length ≤ data.length) :
    ∀ l : List ℕ, (∀ p, p ∈ l → p < data.length - crib.length) →
      searchLoop data crib search kl l =
        some ((l.filter fun p => scan_hit data crib search kl p).map
          fun p => crib_key_spec data crib kl p) := by
  intro l
  induction l with
  | nil => intro _; rfl
  | cons p rest ih =>
    intro hmem
    have hp : p < data.length - crib.length := hmem p (by simp)
    have hpk : p + kl ≤ data.length := by omega
    have hkg := key_guess_at_eq_spec data crib kl p hpk hklc
    obtain ⟨b, hb⟩ := scanP_total search hs
      (decrypt data (crib_key_spec data crib kl p)) 0 (by omega)
    have hhit : scan_hit data crib search kl p = b := by
      unfold scan_hit
      rw [hb]
    rw [show searchLoop data crib search kl (p :: rest) =
      (if kl = 0 then none
       else match scanP (decrypt data (key_guess_at data crib kl p)) search 0 with
        | none => none
        | some true =>
          match searchLoop data crib search kl rest with
          | none => none
          | some ks => some (key_guess_at data crib kl p :: ks)
        | some false => searchLoop data crib search kl rest) from rfl,
      if_neg (by omega), hkg, hb,
      ih (fun q hq => hmem q (by simp [hq]))]
    cases b with
    | false =>
      simp only []
      rw [List.filter_cons_of_neg (by simp [hhit])]
    | true =>
      simp only []
      rw [List.filter_cons_of_pos (by simp [hhit]), List.map_cons]

/-- C3 (confirmed): for every offset `p` in `0 .. data.length -
crib.length`, the `CribAndSearch` strategy derives `keyGuess[j] =
data[p+j] XOR crib[j]` for `j < keyLength`, rotates it right by
`p mod keyLength`, decrypts the entire ciphertext with `keyGuess` as a
cyclic XOR keystream, and runs the search-target scan on that decrypted
stream and nothing else: the returned candidates are exactly the key
guesses of the offsets whose decrypted stream passes the scan, in offset
order. -/
theorem c3_crib_search_refines (data crib search : List ℕ) (kl : ℕ)
    (h0 : 1 ≤ kl) (h1 : kl ≤ crib.length) (h2 : crib.length ≤ data.length)
    (h3 : 2 ≤ search.length) :
    guess_key data kl (.CribAndSearch crib search) =
      some (if ((List.range (data.length - crib.length)).filter
              (fun p => scan_hit data crib search kl p)).map
              (fun p => crib_key_spec data crib kl p) = []
            then .error "No suitable keys found"
            else .ok (((List.range (data.length - crib.length)).filter
              (fun p => scan_hit data crib search kl p)).map
              (fun p => crib_key_spec data crib kl p))) := by
  have hv : is_valid (.CribAndSearch crib search) data kl = .ok () := by
    simp [is_valid]
    omega
  unfold guess_key get_key
  rw [hv]
  simp only []
  rw [if_neg (by omega),
    searchLoop_eq_spec data crib search kl h0 h1 h3 h2
      (List.range (data.length - crib.length)) (fun p hp => by simpa using hp)]

theorem c3_crib_search_refines_w :
    guess_key [7, 7, 3, 9] 1 (.CribAndSearch [7, 7] [0, 4, 5]) =
      some (if ((List.range (4 - 2)).filter
              (fun p => scan_hit [7, 7, 3, 9] [7, 7] [0, 4, 5] 1 p)).map
              (fun p => crib_key_spec [7, 7, 3, 9] [7, 7] 1 p) = []
            then .error "No suitable keys found"
            else .ok (((List.range (4 - 2)).filter
              (fun p => scan_hit [7, 7, 3, 9] [7, 7] [0, 4, 5] 1 p)).map
              (fun p => crib_key_spec [7, 7, 3, 9] [7, 7] 1 p))) :=
  c3_crib_search_refines [7, 7, 3, 9] [7, 7] [0, 4, 5] 1
    (by decide) (by decide) (by decide) (by decide)

/-! ### Key-length analysis bounds (C2) -/

/-- Helper: each selection step keeps the current best or moves to the loop
index. -/
lemma kl_best_step_or (v : List Flt) (t : ℚ) (b i : ℕ) :
    kl_best_step v t b i = b ∨ kl_best_step v t b i = i := by
  unfold kl_best_step
  simp only []
  repeat first | exact Or.inl rfl | exact Or.inr rfl | split

/-- Helper: the selection fold stays below any bound on its start and on
the fed indices. -/
lemma kl_fold_lt (v : List Flt) (t : ℚ) (M : ℕ) :
    ∀ (l : List ℕ) (b : ℕ), b < M → (∀ i, i ∈ l → i < M) →
      l.foldl (kl_best_step v t) b < M := by
  intro l
  induction l with
  | nil =>
    intro b hb _
    simpa using hb
  | cons i rest ih =>
    intro b hb hmem
    rw [List.foldl_cons]
    apply ih
    · rcases kl_best_step_or v t b i with h | h <;> rw [h]
      · exact hb
      · exact hmem i (by simp)
    · intro j hj
      exact hmem j (by simp [hj])

/-- C2 (amended): for non-empty data and `maxLength ≥ 1`,
`analyse_key_length` returns a value in `[1, min(maxLength, data.length)]`
— in particular never 0.  For the degenerate inputs (`maxLength = 0` or
empty data) the interval `[1, min(maxLength, data.length)]` is empty and
the function returns 1. -/
theorem c2_key_length_bounds (data : List ℕ) (maxL : ℕ) (t : ℚ)
    (hd : data ≠ []) (hm : 1 ≤ maxL) :
    1 ≤ analyse_key_length data maxL t ∧
      analyse_key_length data maxL t ≤ min maxL data.length := by
  have hM : 1 ≤ min maxL data.length := by
    rcases data with _ | ⟨x, xs⟩
    · exact absurd rfl hd
    · simp only [Nat.le_min]
      exact ⟨hm, by simp⟩
  constructor
  · simp only [analyse_key_length]
    exact Nat.succ_le_succ (Nat.zero_le _)
  · simp only [analyse_key_length, List.length_map, List.length_range]
    have h := kl_fold_lt
      ((List.range (min maxL data.length)).map fun i => calc_ic_for_key_length data (i + 1))
      t (min maxL data.length) (List.range (min maxL data.length)) 0
      (by omega) (by intro i hi; simpa using hi)
    omega

theorem c2_key_length_bounds_w :
    1 ≤ analyse_key_length [0, 1] 2 (67/1000) ∧
      analyse_key_length [0, 1] 2 (67/1000) ≤ min 2 ([0, 1] : List ℕ).length :=
  c2_key_length_bounds [0, 1] 2 (67/1000) (by decide) (by decide)

/-- C2 counterexample: the claim quantifies over *every* `maxLength`; with
non-empty data `[0]` and `maxLength = 0` the function returns 1, which is
outside the claimed interval `[1, min(0, 1)] = [1, 0]` (empty). -/
theorem c2_key_length_cex :
    analyse_key_length [0] 0 (67/1000) = 1 ∧
    min 0 ([0] : List ℕ).length = 0 ∧ ¬ (1 : ℕ) ≤ 0 := by
  refine ⟨rfl, rfl, by omega⟩

/-! ### Key-length selection as a greedy scan (C4) -/

/-- The selection rule of the amended claim, written over explicit
`(length, score)` candidates: scanning in order, a candidate replaces the
current best only when its score's absolute difference from the target is
strictly smaller, and even then it is ignored when that difference is
within 0.001 of the current best's and its length is an exact multiple of
the current best's length. -/
def select_greedy (t : ℚ) : List (ℕ × Flt) → ℕ × Flt → ℕ
  | [], best => best.1
  | c :: cs, best =>
    if flt (fabs (fsub c.2 (some t))) (fabs (fsub best.2 (some t))) then
      if fle (fabs (fsub (fabs (fsub c.2 (some t)))
          (fabs (fsub best.2 (some t))))) (some (1/1000)) then
        if c.1 % best.1 = 0 then select_greedy t cs best
        else select_greedy t cs c
      else select_greedy t cs c
    else select_greedy t cs best

/-- The amended claim's selection over a full candidate list: the first
candidate is the initial best; an empty list (degenerate input) yields 1,
as the code does. -/
def select_from (t : ℚ) : List (ℕ × Flt) → ℕ
  | [] => 1
  | c :: cs => select_greedy t cs c

lemma flt_irrefl (x : Flt) : flt x x = false := by
  cases x with
  | none => rfl
  | some a => simp [flt]

lemma kl_best_step_eq (v : List Flt) (t : ℚ) (b i : ℕ) :
    kl_best_step v t b i =
      if flt (fabs (fsub v[i]! (some t))) (fabs (fsub v[b]! (some t))) then
        if fle (fabs (fsub (fabs (fsub v[i]! (some t)))
            (fabs (fsub v[b]! (some t))))) (some (1/1000)) then
          if (i + 1) % (b + 1) = 0 then b else i
        else i
      else b := by
  unfold kl_best_step
  simp only [ite_not]

lemma select_greedy_cons (t : ℚ) (c : ℕ × Flt) (cs : List (ℕ × Flt))
    (best : ℕ × Flt) :
    select_greedy t (c :: cs) best =
      if flt (fabs (fsub c.2 (some t))) (fabs (fsub best.2 (some t))) then
        if fle (fabs (fsub (fabs (fsub c.2 (some t)))
            (fabs (fsub best.2 (some t))))) (some (1/1000)) then
          if c.1 % best.1 = 0 then select_greedy t cs best
          else select_greedy t cs c
        else select_greedy t cs c
      else select_greedy t cs best := rfl

/-- Helper: the selection fold, started at best index `b`, agrees with the
greedy spec over the corresponding `(length, score)` pairs. -/
lemma kl_fold_eq_greedy (v : List Flt) (t : ℚ) :
    ∀ (l : List ℕ) (b : ℕ),
      l.foldl (kl_best_step v t) b + 1 =
        select_greedy t (l.map fun i => (i + 1, v[i]!)) (b + 1, v[b]!) := by
  intro l
  induction l with
  | nil => intro b; rfl
  | cons i rest ih =>
    intro b
    rw [List.foldl_cons, List.map_cons, select_greedy_cons]
    simp only []
    rw [kl_best_step_eq]
    repeat first | exact ih b | exact ih i | split

lemma range_map_getElem! (n i : ℕ) (f : ℕ → Flt) (h : i < n) :
    ((List.range n).map f)[i]! = f i := by
  rw [getElem!_pos _ i (by simpa using h), List.getElem_map, List.getElem_range]

/-- C4 (amended): `analyse_key_length` selects greedily among the trial
lengths `1 ..= min(maxLength, data.length)` in increasing order: a later
length replaces the current best only when its score's absolute difference
from `targetIC` is strictly smaller, and even then it is ignored when that
difference is within 0.001 of the current best's difference (the epsilon
compares differences-from-target, not raw scores) and the length is an
exact multiple of the *current best* length; because each candidate is
compared only against the current best, the outcome is order-dependent
rather than a global closest-wins rule. -/
theorem c4_greedy_selection (data : List ℕ) (maxL : ℕ) (t : ℚ) :
    analyse_key_length data maxL t =
      select_from t ((List.range (min maxL data.length)).map
        fun i => (i + 1, calc_ic_for_key_length data (i + 1))) := by
  cases hM : min maxL data.length with
  | zero =>
    simp only [analyse_key_length, hM]
    rfl
  | succ m =>
    simp only [analyse_key_length, hM, List.length_map, List.length_range]
    set v := (List.range (m + 1)).map fun i => calc_ic_for_key_length data (i + 1)
      with hvdef
    have hv : ∀ i, i < m + 1 → v[i]! = calc_ic_for_key_length data (i + 1) := by
      intro i hi
      rw [hvdef]
      exact range_map_getElem! (m + 1) i _ hi
    rw [List.range_succ_eq_map, List.foldl_cons, List.map_cons]
    have h0 : kl_best_step v t 0 0 = 0 := by
      rw [kl_best_step_eq, flt_irrefl, if_neg (by simp)]
    rw [h0, kl_fold_eq_greedy v t ((List.range m).map Nat.succ) 0]
    show select_greedy t (((List.range m).map Nat.succ).map fun i => (i + 1, v[i]!))
        (0 + 1, v[0]!) =
      select_greedy t (((List.range m).map Nat.succ).map
          fun i => (i + 1, calc_ic_for_key_length data (i + 1)))
        (0 + 1, calc_ic_for_key_length data (0 + 1))
    rw [hv 0 (by omega)]
    congr 1
    apply List.map_congr_left
    intro j hj
    have hj2 : j < m + 1 := by
      rcases List.mem_map.1 hj with ⟨a, ha, rfl⟩
      rw [List.mem_range] at ha
      omega
    rw [hv j hj2]

/-! ### Concrete IC evaluations (C4 counterexample, C7) -/

/-- Helper: `calc_ic` evaluated through its (ℕ-valued) numerator and
denominator. -/
lemma calc_ic_eval (data : List ℕ) (offset step n d : ℕ)
    (hn : ((List.range 256).map fun v =>
        (strided (data.drop offset) step).count v *
          ((strided (data.drop offset) step).count v - 1)).sum = n)
    (hd : (strided (data.drop offset) step).length *
        ((strided (data.drop offset) step).length - 1) = d) :
    calc_ic data offset step = fdiv (some (n : ℚ)) (some (d : ℚ)) := by
  simp only [calc_ic]
  rw [hn, hd]

lemma ic_eval_data4_len1 : calc_ic [0, 1, 0, 1] 0 1 = some (1/3) := by
  rw [calc_ic_eval [0, 1, 0, 1] 0 1 4 12 (by decide) (by decide)]
  norm_num [fdiv]

lemma ic_eval_data4_len2a : calc_ic [0, 1, 0, 1] 0 2 = some 1 := by
  rw [calc_ic_eval [0, 1, 0, 1] 0 2 2 2 (by decide) (by decide)]
  norm_num [fdiv]

lemma ic_eval_data4_len2b : calc_ic [0, 1, 0, 1] 1 2 = some 1 := by
  rw [calc_ic_eval [0, 1, 0, 1] 1 2 2 2 (by decide) (by decide)]
  norm_num [fdiv]

lemma ic_kl_eval_1 : calc_ic_for_key_length [0, 1, 0, 1] 1 = some (1/3) := by
  simp only [calc_ic_for_key_length]
  rw [show List.range 1 = [0] from rfl, List.foldl_cons, List.foldl_nil,
    ic_eval_data4_len1]
  norm_num [fadd, fdiv]

lemma ic_kl_eval_2 : calc_ic_for_key_length [0, 1, 0, 1] 2 = some 1 := by
  simp only [calc_ic_for_key_length]
  rw [show List.range 2 = [0, 1] from rfl, List.foldl_cons, List.foldl_cons,
    List.foldl_nil, ic_eval_data4_len2a, ic_eval_data4_len2b]
  norm_num [fadd, fdiv]

lemma analyse_cex_eval : analyse_key_length [0, 1, 0, 1] 2 (8003/12000) = 1 := by
  simp only [analyse_key_length]
  show List.foldl
      (kl_best_step [calc_ic_for_key_length [0, 1, 0, 1] 1,
        calc_ic_for_key_length [0, 1, 0, 1] 2] (8003/12000)) 0 [0, 1] + 1 = 1
  rw [ic_kl_eval_1, ic_kl_eval_2, List.foldl_cons, List.foldl_cons, List.foldl_nil]
  have h00 : kl_best_step [some (1/3), some 1] (8003/12000) 0 0 = 0 := by
    rw [kl_best_step_eq, flt_irrefl, if_neg (by simp)]
  rw [h00]
  have e0 : ([some (1/3), some 1] : List Flt)[0]! = some (1/3) := rfl
  have e1 : ([some (1/3), some 1] : List Flt)[1]! = some 1 := rfl
  have ha : fabs (fsub (some 1) (some (8003/12000))) = some (3997/12000) := by
    simp only [fsub, fabs]
    rw [show (1 : ℚ) - 8003/12000 = 3997/12000 from by norm_num,
      abs_of_pos (by norm_num : (0 : ℚ) < 3997/12000)]
  have hb : fabs (fsub (some (1/3)) (some (8003/12000))) = some (4003/12000) := by
    simp only [fsub, fabs]
    rw [show (1 : ℚ)/3 - 8003/12000 = -(4003/12000) from by norm_num, abs_neg,
      abs_of_pos (by norm_num : (0 : ℚ) < 4003/12000)]
  have hc : fabs (fsub (some (3997/12000)) (some (4003/12000))) = some (1/2000) := by
    simp only [fsub, fabs]
    rw [show (3997 : ℚ)/12000 - 4003/12000 = -(1/2000) from by norm_num, abs_neg,
      abs_of_pos (by norm_num : (0 : ℚ) < 1/2000)]
  have h01 : kl_best_step [some (1/3), some 1] (8003/12000) 0 1 = 0 := by
    rw [kl_best_step_eq, e0, e1, ha, hb, hc]
    rw [if_pos (by norm_num [flt] : flt (some (3997/12000)) (some (4003/12000)) = true)]
    rw [if_pos (by norm_num [fle] : fle (some (1/2000)) (some (1/1000)) = true)]
    rw [if_pos (by norm_num : (1 + 1) % (0 + 1) = 0)]
  rw [h01]

/-- C4 counterexample: with data `[0,1,0,1]`, `maxLength = 2` and target
`8003/12000`, the trial scores are 1/3 (length 1) and 1 (length 2); the two
scores are not within 0.001 of each other, and length 2's score is strictly
closer to the target — so the claim demands that length 2 win — yet
`analyse_key_length` returns 1: the code's epsilon test compares the
absolute *differences from the target* (here 4003/12000 and 3997/12000,
which are within 0.001), treats 2 as a harmonic multiple of the current
best 1, and ignores the strictly better candidate. -/
theorem c4_selection_cex :
    analyse_key_length [0, 1, 0, 1] 2 (8003/12000) = 1 ∧
    calc_ic_for_key_length [0, 1, 0, 1] 1 = some (1/3) ∧
    calc_ic_for_key_length [0, 1, 0, 1] 2 = some 1 ∧
    ¬ |(1 : ℚ) - 1/3| ≤ 1/1000 ∧
    |(1 : ℚ) - 8003/12000| < |(1/3 : ℚ) - 8003/12000| := by
  refine ⟨analyse_cex_eval, ic_kl_eval_1, ic_kl_eval_2, ?_, ?_⟩
  · rw [show (1 : ℚ) - 1/3 = 2/3 from by norm_num,
      abs_of_pos (by norm_num : (0 : ℚ) < 2/3)]
    norm_num
  · rw [show (1 : ℚ) - 8003/12000 = 3997/12000 from by norm_num,
      abs_of_pos (by norm_num : (0 : ℚ) < 3997/12000),
      show (1 : ℚ)/3 - 8003/12000 = -(4003/12000) from by norm_num, abs_neg,
      abs_of_pos (by norm_num : (0 : ℚ) < 4003/12000)]
    norm_num

/-! ### Division by zero in the IC computation (C7) -/

/-- C7 (the bug, evaluated): a residue class with a single element makes
`calc_ic` compute `0.0 / 0.0`, i.e. NaN — not the 0 contribution the claim
requires — and the NaN propagates into the trial length's mean score:
for the one-byte input `[65]` the only class of trial length 1 has size 1
and both the class IC and the averaged score are NaN. -/
theorem c7_nan_class :
    calc_ic [65] 0 1 = none ∧ calc_ic_for_key_length [65] 1 = none := by decide
